import Mathlib

/-!
Verification of the bank-statement ingestion and normalization pipeline of
`backend/app/services/risk_service.py` (functions `_decode_bytes`,
`_normalize_col_name`, `_to_numeric`, `_extract_text_transactions`,
`_load_statement_dataframe`, `_best_numeric_column`, `_find_column`,
`_normalize_statement`, `analyze_bank_statement`).

The embedding works over exact rationals (`Rat`) in place of IEEE floats:
every numeric value appearing in the pipeline is produced by parsing a
decimal token, so its exact value is a rational, and all the claim values
are far below any magnitude where double rounding could differ.
Strings are modelled as `List Char` and the ASCII fragment of Python's
string operations is modelled (all inputs in the claims are ASCII).
-/

namespace FinAware

/-- Text is modelled as a list of characters. -/
abbrev Str := List Char

/-- ASCII decimal digit, the `\d` of the source's regexes on ASCII text. -/
def isDigitChar (c : Char) : Bool := c.isDigit

/-- Lower-case ASCII letter test, for `_normalize_col_name`'s `[^a-z0-9]`. -/
def isLowerAZ (c : Char) : Bool := 'a' ≤ c && c ≤ 'z'

/-- Whitespace stripped by Python's `str.strip()` (ASCII fragment). -/
def isSpaceChar (c : Char) : Bool :=
  c = ' ' || c = '\t' || c = '\n' || c = '\r' || c = '\x0b' || c = '\x0c'

/-- Python `str.strip()`: drop whitespace from both ends. -/
def pyStrip (s : Str) : Str :=
  ((s.dropWhile isSpaceChar).reverse.dropWhile isSpaceChar).reverse

/-- Python `str.lower()` (ASCII fragment). -/
def pyLower (s : Str) : Str := s.map Char.toLower

/-- Split a list at every occurrence of the separator, Python `str.split(sep)`.
`splitOnChar ',' "a,b" = ["a", "b"]`, and the empty string gives `[""]`. -/
def splitOnChar (d : Char) : Str → List Str
  | [] => [[]]
  | c :: cs =>
    if c = d then [] :: splitOnChar d cs
    else
      match splitOnChar d cs with
      | [] => [[c]]
      | p :: ps => (c :: p) :: ps

/-- Worker for `splitLines`: `cur` is the current line, reversed. -/
def splitLinesAux : Str → Str → List Str
  | cur, [] => if cur = [] then [] else [cur.reverse]
  | cur, c :: cs =>
    if c = '\n' then cur.reverse :: splitLinesAux [] cs
    else splitLinesAux (c :: cur) cs

/-- Python `str.splitlines()` restricted to `\n` separators: interior empty
lines are kept, a trailing newline produces no final empty line. -/
def splitLines (s : Str) : List Str := splitLinesAux [] s

/-- Whether `pre` is a prefix of `l` (Boolean, by character equality). -/
def isPrefixCL : Str → Str → Bool
  | [], _ => true
  | _ :: _, [] => false
  | a :: as, b :: bs => a = b && isPrefixCL as bs

/-- Whether `needle` occurs as a contiguous substring of `hay`:
Python's `needle in hay`. -/
def substrIn (needle : Str) : Str → Bool
  | [] => needle.isEmpty
  | h :: t => isPrefixCL needle (h :: t) || substrIn needle t

/-- Whether any of the given substrings occurs in `hay`; models both
`any(k in hay for k in ...)` and `str.contains("a|b|c", regex=True)`. -/
def containsAny (keys : List Str) (hay : Str) : Bool :=
  keys.any (fun k => substrIn k hay)

/-- Source `_normalize_col_name`: `re.sub(r"[^a-z0-9]+", "", str(name).strip().lower())`.
After lower-casing, dropping every character outside `[a-z0-9]` subsumes the strip. -/
def normalizeColName (s : Str) : Str :=
  (pyLower (pyStrip s)).filter (fun c => isLowerAZ c || isDigitChar c)

/-- Value of a digit string, most significant first. -/
def digitsVal (l : Str) : Nat := l.foldl (fun acc c => acc * 10 + (c.toNat - 48)) 0

/-- Strip one optional leading minus sign, reporting whether it was there. -/
def stripNeg : Str → Bool × Str
  | '-' :: t => (true, t)
  | t => (false, t)

/-- Parse a cleaned numeric string (only digits, `.`, `-` remain) the way
`pd.to_numeric(..., errors="coerce")` / Python `float()` does: an optional
leading minus, then digits with at most one decimal point and at least one
digit; anything else coerces to missing. -/
def parseCleaned (l : Str) : Option Rat :=
  match splitOnChar '.' (stripNeg l).2 with
  | [ip] =>
    if ip ≠ [] && ip.all isDigitChar then
      some (if (stripNeg l).1 then -(digitsVal ip : Rat) else (digitsVal ip : Rat))
    else none
  | [ip, fp] =>
    if (ip ++ fp) ≠ [] && (ip ++ fp).all isDigitChar then
      some (if (stripNeg l).1 then
          -(Rat.divInt (digitsVal (ip ++ fp)) ((10 : Int) ^ fp.length))
        else Rat.divInt (digitsVal (ip ++ fp)) ((10 : Int) ^ fp.length))
    else none
  | _ => none

/-- Source `_to_numeric` applied to one already-stringified cell:
drop thousands separators, drop every character that is not a digit, dot or
minus, collapse the explicit junk values to missing, then coerce. -/
def toNumericStr (s : Str) : Option Rat :=
  let noComma := s.filter (fun c => c ≠ ',')
  let cleaned := noComma.filter (fun c => isDigitChar c || c = '.' || c = '-')
  if cleaned = [] || cleaned = ['-'] || cleaned = ['.'] || cleaned = ['-', '-'] then none
  else parseCleaned cleaned

/-- A cell of a raw table. Tables loaded from delimited text hold strings;
tables built by `_extract_text_transactions` hold already-parsed numbers in
their amount and balance columns (`Option Rat`, `none` being `NaN`).
This mirrors the dtypes the pandas frames actually carry at that point. -/
inductive Cell where
  | str : Str → Cell
  | num : Option Rat → Cell
deriving DecidableEq

/-- Decimal rendering of a rational whose denominator divides `10^30`,
mirroring `str(float)` on the terminating decimals this pipeline creates
(pandas' `astype(str)` always keeps at least one fractional digit). -/
def ratPyStr (q : Rat) : Str :=
  let sign : Str := if q.num < 0 then ['-'] else []
  let scaled := q.num.natAbs * 10 ^ 30 / q.den
  let ipart := (Nat.toDigits 10 (scaled / 10 ^ 30))
  let frev := (Nat.toDigits 10 (scaled % 10 ^ 30 + 10 ^ 30)).drop 1 |>.reverse.dropWhile (fun c => c = '0')
  sign ++ ipart ++ '.' :: (if frev = [] then ['0'] else frev.reverse)

/-- Python `str(...)` of a cell value, as `astype(str)` produces it:
`NaN` stringifies to `"nan"`. -/
def cellPyStr : Cell → Str
  | Cell.str s => s
  | Cell.num none => "nan".data
  | Cell.num (some q) => ratPyStr q

/-- Source `_to_numeric` on one cell: `astype(str)` then the cleaning
pipeline. A stored number round-trips to itself (its decimal rendering
re-parses exactly); a stored `NaN` renders as `"nan"`, which cleans to the
empty string and coerces to missing. -/
def toNumericCell : Cell → Option Rat
  | Cell.str s => toNumericStr s
  | Cell.num q? => q?

/-- A raw table: ordered headers and rows of cells, one cell per header
(short rows read as missing values, see `cellAtIdx`). -/
structure RawTable where
  headers : List Str
  rows : List (List Cell)
deriving DecidableEq

/-- Pandas `DataFrame.empty` is true when either axis is empty. -/
def nonEmptyTable (t : RawTable) : Bool :=
  !t.rows.isEmpty && !t.headers.isEmpty

/-- Cell of a row at a column index; a missing position reads as `NaN`. -/
def cellAtIdx (row : List Cell) (i : Nat) : Cell := row.getD i (Cell.num none)

/-- Index of the first column with the given (stripped) header name.
Pandas label lookup returns a Series only when the label is unique, and
every resolved label the total model reads through this function is unique
on the non-raising runs it describes; a duplicated touched label makes the
source raise instead, which `normalizeStatementE`/`dupLabel` model. -/
def colIndex? (headers : List Str) (name : Str) : Option Nat :=
  headers.findIdx? (fun h => h = name)

/-- A canonical transaction, the `normalized` frame's row: the `date`
column is also built by the source but is never read by the summarizer,
so it is not carried here. -/
structure Tx where
  amount : Rat
  txType : Str
  balance : Option Rat
  descr : Str
deriving DecidableEq

/-- The fixed-shape record `analyze_bank_statement` returns. -/
structure Summary where
  monthly_income_estimate : Rat
  monthly_expense_estimate : Rat
  avg_monthly_balance : Rat
  income_volatility_index : Rat
  upi_transaction_frequency : Nat
deriving DecidableEq

/-- The all-zero summary returned on the degraded paths. -/
def zeroSummary : Summary := ⟨0, 0, 0, 0, 0⟩

/-- The `detected` mapping `_normalize_statement` returns alongside the
canonical frame. -/
structure Detected where
  dateCol : Option Str
  amountCol : Option Str
  debitCol : Option Str
  creditCol : Option Str
  typeCol : Option Str
  balanceCol : Option Str
  descCol : Option Str
deriving DecidableEq

/-- Keyword list for the date role, from `_normalize_statement`. -/
def dateKeys : List Str :=
  ["date".data, "valuedate".data, "postdate".data, "txndate".data, "transactiondate".data]

/-- Keyword list for the balance role. -/
def balanceKeys : List Str :=
  ["balance".data, "runningbalance".data, "availablebalance".data, "closingbalance".data,
   "runningbal".data, "closingbal".data, "availbal".data, "bal".data]

/-- Keyword list for the type role. -/
def typeKeys : List Str :=
  ["drcr".data, "debitcredit".data, "transtype".data, "type".data]

/-- Keyword list for the description role. -/
def descKeys : List Str :=
  ["description".data, "narration".data, "remarks".data, "details".data,
   "particular".data, "merchant".data, "note".data]

/-- Keyword list for the debit role. -/
def debitKeys : List Str :=
  ["debit".data, "withdraw".data, "dramount".data, "dr".data]

/-- Keyword list for the credit role. -/
def creditKeys : List Str :=
  ["credit".data, "deposit".data, "cramount".data, "cr".data]

/-- Keyword list for the amount role. -/
def amountKeys : List Str :=
  ["amount".data, "txnamount".data, "transactionamount".data, "amt".data]

/-- Source `_find_column`: for each keyword in priority order, return the
first header whose normalized name contains it as a substring. -/
def findColumn (headers : List Str) : List Str → Option Str
  | [] => none
  | k :: ks =>
    match headers.find? (fun h => substrIn k (normalizeColName h)) with
    | some h => some h
    | none => findColumn headers ks

/-- Fraction of a column's cells that coerce to a number
(`_to_numeric(df[col]).notna().mean()`); `none` is the `NaN` mean of an
empty column, which compares false against any running best. -/
def colScore (t : RawTable) (name : Str) : Option Rat :=
  match colIndex? t.headers name with
  | none => none
  | some i =>
    if t.rows.length = 0 then none
    else some (Rat.divInt (t.rows.countP (fun r => (toNumericCell (cellAtIdx r i)).isSome)) t.rows.length)

/-- One column step of `_best_numeric_column`: skip excluded names, skip
`NaN` scores, keep a strictly better score (the first best wins ties). -/
def bestStep (t : RawTable) (excluded : List Str) (best : Option Str × Rat)
    (col : Str) : Option Str × Rat :=
  if excluded.contains col then best
  else
    match colScore t col with
    | none => best
    | some sc => if best.2 < sc then (some col, sc) else best

/-- Source `_best_numeric_column`: scan columns in order keeping the first
strictly-best numeric-coercion score, excluding the given names; require at
least a 30% success rate. -/
def bestNumericColumn (t : RawTable) (excluded : List Str) : Option Str :=
  let best := t.headers.foldl (bestStep t excluded) ((none : Option Str), (-1 : Rat))
  if best.2 < Rat.divInt 3 10 then none else best.1

/-- Column-role resolution of `_normalize_statement` (lines 524-538 and the
fallback on line 557-558): headers are stripped, each role is resolved by
`_find_column`, and when no debit/credit pair resolves the amount falls back
to the best numeric column excluding the date and balance columns.
`amountCol` is reported as the source's `detected` dict reports it: `None`
when the debit/credit pair is in use. -/
def statementCols (t : RawTable) : Detected :=
  let hs := t.headers.map pyStrip
  let dateCol := findColumn hs dateKeys
  let balanceCol := findColumn hs balanceKeys
  let typeCol := findColumn hs typeKeys
  let descCol := findColumn hs descKeys
  let debitCol := findColumn hs debitKeys
  let creditCol := findColumn hs creditKeys
  let amountCol :=
    if debitCol.isSome && creditCol.isSome then none
    else
      match findColumn hs amountKeys with
      | some a => some a
      | none => bestNumericColumn ⟨hs, t.rows⟩ ([balanceCol, dateCol].filterMap id)
  ⟨dateCol, amountCol, debitCol, creditCol, typeCol, balanceCol, descCol⟩

/-- The cell of `row` under a resolved column name, `none` when the name is
unresolved. Headers are the stripped ones, as in the source. -/
def cellAtCol (t : RawTable) (row : List Cell) (name? : Option Str) : Option Cell :=
  name?.bind (fun n => (colIndex? (t.headers.map pyStrip) n).map (cellAtIdx row))

/-- Classification keywords for an explicit type column
(`"cr|credit|dep|salary|refund"`). -/
def creditTypePats : List Str :=
  ["cr".data, "credit".data, "dep".data, "salary".data, "refund".data]

/-- Debit keywords for an explicit type column (`"dr|debit|with|pay|purchase"`). -/
def debitTypePats : List Str :=
  ["dr".data, "debit".data, "with".data, "pay".data, "purchase".data]

/-- Credit keywords applied to a description (`"credit|salary|deposit|refund|received"`). -/
def creditDescPats : List Str :=
  ["credit".data, "salary".data, "deposit".data, "refund".data, "received".data]

/-- Debit keywords applied to a description (`"debit|withdraw|payment|purchase|spent"`). -/
def debitDescPats : List Str :=
  ["debit".data, "withdraw".data, "payment".data, "purchase".data, "spent".data]

/-- The amount value the normalization pipeline resolves for one row,
before the absolute value is stored (lines 549-559): with a debit/credit
pair both columns coerce with `fillna(0).abs()` and the credit value wins
when positive; otherwise the resolved amount column's cell coerces, `none`
meaning the row has no resolvable amount and is dropped. -/
def rowResolvedAmount? (t : RawTable) (row : List Cell) : Option Rat :=
  let cols := statementCols t
  match cols.debitCol, cols.creditCol with
  | some dc, some cc =>
    let dval := |(((cellAtCol t row (some dc)).bind toNumericCell).getD 0)|
    let cval := |(((cellAtCol t row (some cc)).bind toNumericCell).getD 0)|
    some (if 0 < cval then cval else dval)
  | _, _ => (cellAtCol t row cols.amountCol).bind toNumericCell

/-- Lines 596-597 of the source: lower-case the type and coerce anything
other than `credit`/`debit` to `debit`. -/
def coerceType (s : Str) : Str :=
  if pyLower s = "credit".data || pyLower s = "debit".data then pyLower s else "debit".data

/-- The canonical transaction built from one raw row, `none` when the row
is dropped by `dropna(subset=["amount"])`. Covers lines 549-597: the
four-tier type classifier, the balance and description columns, and the
final type coercion. -/
def rowTx? (t : RawTable) (row : List Cell) : Option Tx :=
  let cols := statementCols t
  let balance := (cellAtCol t row cols.balanceCol).bind toNumericCell
  let descr := match cellAtCol t row cols.descCol with
    | some c => pyStrip (cellPyStr c)
    | none => []
  match cols.debitCol, cols.creditCol with
  | some dc, some cc =>
    let dval := |(((cellAtCol t row (some dc)).bind toNumericCell).getD 0)|
    let cval := |(((cellAtCol t row (some cc)).bind toNumericCell).getD 0)|
    some ⟨if 0 < cval then cval else dval,
          coerceType (if 0 < cval then "credit".data else "debit".data),
          balance, descr⟩
  | _, _ =>
    match (cellAtCol t row cols.amountCol).bind toNumericCell with
    | none => none
    | some v =>
      let ty := match cols.typeCol with
        | some tc =>
          let tval := pyLower (pyStrip (cellPyStr ((cellAtCol t row (some tc)).getD (Cell.num none))))
          if containsAny creditTypePats tval then "credit".data
          else if containsAny debitTypePats tval then "debit".data
          else "debit".data
        | none =>
          match cols.descCol with
          | some dcc =>
            let dtext := pyLower (cellPyStr ((cellAtCol t row (some dcc)).getD (Cell.num none)))
            if containsAny creditDescPats dtext then "credit".data
            else if containsAny debitDescPats dtext then "debit".data
            else "debit".data
          | none => if v < 0 then "debit".data else "credit".data
      some ⟨|v|, coerceType ty, balance, descr⟩

/-- Source `_normalize_statement`: canonical transactions (rows without a
resolvable amount dropped) plus the detected column map. -/
def normalizeStatement (t : RawTable) : List Tx × Detected :=
  (t.rows.filterMap (rowTx? t), statementCols t)

/-- Python `round(x, n)` on exact values: round half to even at `n`
decimal places. -/
def pyRound (n : Nat) (x : Rat) : Rat :=
  let y := x * (10 : Rat) ^ n
  let f := y.floor
  let r := y - (f : Rat)
  let i : Int :=
    if r < Rat.divInt 1 2 then f
    else if Rat.divInt 1 2 < r then f + 1
    else if f % 2 = 0 then f else f + 1
  Rat.divInt i ((10 : Int) ^ n)

/-- Computable square root on `Rat`, exact on squares of rationals (the
only values any claim touches are exact: the variance of fewer than two
samples, or of identical samples, is 0). Models `math.sqrt` within the
exact-rational idealization. -/
def ratSqrt (q : Rat) : Rat :=
  if q ≤ 0 then 0 else Rat.divInt (Nat.sqrt (q.num.toNat * q.den)) (q.den : Int)

/-- Population variance (`pandas .std(ddof=0)` squared). -/
def popVar (xs : List Rat) : Rat :=
  let n : Rat := (xs.length : Rat)
  let mu := xs.sum / n
  ((xs.map (fun x => (x - mu) ^ 2)).sum) / n

/-- Payment-app markers counted by the summarizer (`"upi|gpay|phonepe|paytm|bhim"`). -/
def upiPats : List Str :=
  ["upi".data, "gpay".data, "phonepe".data, "paytm".data, "bhim".data]

/-- Lines 630-650 of `analyze_bank_statement`: partition by type, sum
credits and debits, average the present balances, take the population
standard deviation of credits (0 below two samples), and count payment-app
descriptions — or debit rows when no description column resolved. -/
def summarizeTxs (txs : List Tx) (descResolved : Bool) : Summary :=
  let credit := (txs.filter (fun tx => tx.txType = "credit".data)).map (fun tx => |tx.amount|)
  let debit := (txs.filter (fun tx => tx.txType = "debit".data)).map (fun tx => |tx.amount|)
  let monthlyIncome := credit.sum
  let monthlyExpenses := debit.sum
  let balances := txs.filterMap (fun tx => tx.balance)
  let avgBalance := if balances.isEmpty then 0 else balances.sum / (balances.length : Rat)
  let volatility := if 1 < credit.length then ratSqrt (popVar credit) else 0
  let upi :=
    if descResolved then
      txs.countP (fun tx => containsAny upiPats (pyLower tx.descr))
    else
      txs.countP (fun tx => tx.txType = "debit".data)
  ⟨pyRound 2 monthlyIncome, pyRound 2 monthlyExpenses, pyRound 2 avgBalance,
   pyRound 4 volatility, upi⟩

/-- The whole of `analyze_bank_statement` after the loader: empty raw table
or zero surviving transactions give the all-zero summary, otherwise the
aggregation runs. -/
def summaryOfTable (t : RawTable) : Summary :=
  if !nonEmptyTable t then zeroSummary
  else
    let txs := (normalizeStatement t).1
    let det := (normalizeStatement t).2
    if txs.isEmpty then zeroSummary
    else summarizeTxs txs det.descCol.isSome

/-- Raw document bytes. -/
abbrev Bytes := List Nat

/-- UTF-8 continuation byte. -/
def isCont (b : Nat) : Bool := 128 ≤ b && b < 192

/-- Decode one UTF-8 scalar from the head of the stream, returning the
character and the remaining bytes, or `none` on malformed input. -/
def utf8Step : Bytes → Option (Char × Bytes)
  | [] => none
  | b :: rest =>
    if b < 128 then some (Char.ofNat b, rest)
    else if 194 ≤ b && b ≤ 223 then
      match rest with
      | b1 :: r => if isCont b1 then some (Char.ofNat ((b - 192) * 64 + (b1 - 128)), r) else none
      | [] => none
    else if 224 ≤ b && b ≤ 239 then
      match rest with
      | b1 :: b2 :: r =>
        if isCont b1 && isCont b2 then
          some (Char.ofNat ((b - 224) * 4096 + (b1 - 128) * 64 + (b2 - 128)), r)
        else none
      | _ => none
    else if 240 ≤ b && b ≤ 244 then
      match rest with
      | b1 :: b2 :: b3 :: r =>
        if isCont b1 && isCont b2 && isCont b3 then
          some (Char.ofNat ((b - 240) * 262144 + (b1 - 128) * 4096 + (b2 - 128) * 64 + (b3 - 128)), r)
        else none
      | _ => none
    else none

/-- Fuel-driven UTF-8 decoding loop; the fuel is an upper bound on the
number of characters, so `length` fuel always suffices. -/
def utf8Go : Nat → Bytes → Option Str
  | _, [] => some []
  | 0, _ :: _ => none
  | f + 1, b :: rest =>
    match utf8Step (b :: rest) with
    | none => none
    | some (c, r) => (utf8Go f r).map (fun cs => c :: cs)

/-- Strict UTF-8 decoding of a byte stream (Python `bytes.decode("utf-8")`,
raising modelled as `none`). -/
def utf8Decode? (b : Bytes) : Option Str := utf8Go b.length b

/-- Drop a UTF-8 byte-order mark, for the `utf-8-sig` codec. -/
def stripBOM (b : Bytes) : Bytes :=
  if b.take 3 = [239, 187, 191] then b.drop 3 else b

/-- Latin-1 decoding: total, one character per byte. -/
def latin1Decode (b : Bytes) : Str := b.map (fun n => Char.ofNat (n % 256))

/-- Source `_decode_bytes`: try `utf-8-sig`, then `utf-8`, then `latin1`.
Total by construction — the latin1 tier never fails, so the final
`errors="ignore"` tier of the source is unreachable. -/
def decodeBytes (b : Bytes) : Str :=
  match utf8Decode? (stripBOM b) with
  | some s => s
  | none =>
    match utf8Decode? b with
    | some s => s
    | none => latin1Decode b

/-- Delimiters `csv.Sniffer` prefers, in its preference order; the model
picks the first one present in the header line. -/
def sniffDelims : List Char := [',', '\t', ';', ' ', ':']

/-- Model of the library call `pd.read_csv(..., sep=None, engine="python")`:
auto-detect the field delimiter from the first line, take the first row as
the header, fail (a miss) when no delimiter is found or a data row has more
fields than the header, and read short rows' missing tail cells as `NaN`.
Raw header names that are already duplicated in the file are dedup-mangled
by pandas (`a`, `a.1`); the model keeps them as-is — every input a theorem
below evaluates has distinct raw headers, including the crash input, whose
headers only collide after the later strip. -/
def csvAuto? (s : Str) : Option RawTable :=
  match splitLines s with
  | [] => none
  | first :: restLines =>
    match sniffDelims.find? (fun d => first.contains d) with
    | none => none
    | some d =>
      let header := splitOnChar d first
      let rows := restLines.map (splitOnChar d)
      if rows.any (fun r => header.length < r.length) then none
      else
        some ⟨header,
              rows.map (fun r => (List.range header.length).map
                (fun i => if h : i < r.length then Cell.str (r.get ⟨i, h⟩) else Cell.num none))⟩

/-- Date-token patterns of `_extract_text_transactions` are only stored in
the `date` column, which the summarizer never reads; the model stores the
empty string there. Numeric tokens (`[-+]?\d[\d,]*\.?\d*`) are scanned by
`takeNumToken`/`scanNums` below. -/
def grabNum (first : Char) (rest : Str) : Str × Str :=
  let run := rest.takeWhile (fun c => isDigitChar c || c = ',')
  let r1 := rest.dropWhile (fun c => isDigitChar c || c = ',')
  match r1 with
  | '.' :: r2 => (first :: run ++ '.' :: r2.takeWhile isDigitChar, r2.dropWhile isDigitChar)
  | _ => (first :: run, r1)

/-- Maximal numeric token at the head of the text, if one starts here:
optional sign, a digit, digit/comma run, optional decimal part. -/
def takeNumToken : Str → Option (Str × Str)
  | [] => none
  | c :: cs =>
    if isDigitChar c then some (grabNum c cs)
    else if c = '-' || c = '+' then
      match cs with
      | d :: ds => if isDigitChar d then
          some ((fun p => (c :: p.1, p.2)) (grabNum d ds))
        else none
      | [] => none
    else none

/-- Left-to-right non-overlapping scan for numeric tokens, the `findall` of
the amount regex; fuel decreases at least one character per step. -/
def scanNums : Nat → Str → List Str
  | 0, _ => []
  | _, [] => []
  | f + 1, c :: cs =>
    match takeNumToken (c :: cs) with
    | some (tok, r) => tok :: scanNums f r
    | none => scanNums f cs

/-- All numeric tokens of a line. -/
def lineNumbers (l : Str) : List Str := scanNums l.length l

/-- Parse a numeric token: every token the scanner produces parses (its
commas are dropped and what remains is sign, digits, one optional dot). -/
def parseToken (tok : Str) : Option Rat := toNumericStr tok

/-- Credit keywords of the text extractor. -/
def textCreditKeys : List Str :=
  ["credit".data, "cr".data, "salary".data, "deposit".data, "refund".data, "received".data]

/-- Debit keywords of the text extractor. -/
def textDebitKeys : List Str :=
  ["debit".data, "dr".data, "withdraw".data, "spent".data, "purchase".data, "payment".data]

/-- One candidate row of `_extract_text_transactions` from one line, or
`none` when the line is skipped (shorter than 5 characters after stripping,
or without a parsed numeric token). -/
def textRow? (rawLine : Str) : Option (List Cell) :=
  let line := pyStrip rawLine
  if line.length < 5 then none
  else
    let parsed := (lineNumbers line).filterMap parseToken
    match parsed with
    | [] => none
    | v :: vs =>
      let amount := |v|
      let balance : Option Rat :=
        if vs = [] then none else some |(v :: vs).getLast (by simp)|
      let lower := pyLower line
      let ty : Str :=
        if containsAny textCreditKeys lower then "credit".data
        else if containsAny textDebitKeys lower then "debit".data
        else "debit".data
      some [Cell.str [], Cell.str line, Cell.num (some amount), Cell.num balance, Cell.str ty]

/-- Source `_extract_text_transactions`: one candidate row per qualifying
line, as a raw table with the five fixed headers (an empty row list gives
the empty frame, with no columns). -/
def extractTextTransactions (text : Str) : RawTable :=
  let rows := (splitLines text).filterMap textRow?
  if rows.isEmpty then ⟨[], []⟩
  else ⟨["date".data, "description".data, "amount".data, "balance".data, "type".data], rows⟩

/-- A loader strategy: may return a table, return nothing, or raise —
the chain treats the last two identically. -/
abbrev PyLoader := Bytes → Except String (Option RawTable)

/-- The delimited-text strategy: `pd.read_csv` decodes the raw bytes as
strict UTF-8 (an undecodable byte raises) and then auto-sniffs. -/
def csvLoad : PyLoader := fun b =>
  match utf8Decode? b with
  | none => Except.error "UnicodeDecodeError"
  | some s =>
    match csvAuto? s with
    | none => Except.error "ParserError"
    | some t => Except.ok (some t)

/-- Partial model of the library call `pd.read_excel`: on every input a
theorem of this file evaluates it at (plain comma-separated text, empty
bytes, short digit-free text) the real reader raises on the non-archive
bytes, so the model is that miss. Its success behaviour on genuine
spreadsheet bytes is not modelled, and no theorem depends on it: the
universal claims either quantify over arbitrary strategy behaviour or
carry an explicit digit-free-cells hypothesis. -/
def excelLoad : PyLoader := fun _ => Except.error "ExcelError"

/-- Partial model of the library call `pd.read_json`: on every input a
theorem of this file evaluates it at, either the delimited-text strategy
has already won the chain or the bytes are not JSON and the real reader
raises, so the model is that miss. Its success behaviour on genuine JSON
bytes is not modelled, and no theorem depends on it: the universal claims
either quantify over arbitrary strategy behaviour or carry an explicit
digit-free-cells hypothesis. -/
def jsonLoad : PyLoader := fun _ => Except.error "JsonError"

/-- Partial model of the library call `pd.read_xml`: on every input a
theorem of this file evaluates it at, either the delimited-text strategy
has already won the chain or the bytes are not XML and the real reader
raises, so the model is that miss. Its success behaviour on genuine XML
bytes is not modelled, and no theorem depends on it. -/
def xmlLoad : PyLoader := fun _ => Except.error "XmlError"

/-- Partial model of the source's `_tables_from_pdf`
(risk_service.py:376-408): when `pdfplumber` is not importable it returns
`(None, "pdfparser_missing")` — a chain miss — and when importable,
`pdfplumber.open` raises on the non-PDF bytes every theorem of this file
uses, which the chain catches as a miss. Its table-extraction and
page-text branches on genuine PDF bytes are not modelled, and no theorem
depends on them. -/
def pdfLoad : PyLoader := fun _ => Except.ok none

/-- Partial model of the source's `_tables_from_docx`
(risk_service.py:411-441): when `python-docx` is not importable it returns
`(None, "docxparser_missing")` — a chain miss — and when importable,
`docx.Document` raises on the non-archive bytes every theorem of this file
uses, which the chain catches as a miss. Its table and paragraph-text
branches on genuine documents are not modelled, and no theorem depends on
them. -/
def docxLoad : PyLoader := fun _ => Except.ok none

/-- The fixed generic fallback chain of `_load_statement_dataframe`. -/
def genericLoaders : List (String × PyLoader) :=
  [("csv", csvLoad), ("excel", excelLoad), ("json", jsonLoad),
   ("xml", xmlLoad), ("pdf", pdfLoad), ("docx", docxLoad)]

/-- Extension-specific strategies tried first, keyed by the lower-cased
suffix after the last dot of the filename. -/
def extLoaders (ext : Str) : List (String × PyLoader) :=
  if ext = "csv".data then [("csv", csvLoad)]
  else if ext = "xlsx".data || ext = "xls".data then [("excel", excelLoad)]
  else if ext = "tsv".data || ext = "txt".data then [("text_csv", csvLoad)]
  else if ext = "json".data then [("json", jsonLoad)]
  else if ext = "xml".data then [("xml", xmlLoad)]
  else if ext = "pdf".data then [("pdf", pdfLoad)]
  else if ext = "docx".data || ext = "doc".data then [("docx", docxLoad)]
  else []

/-- `filename.lower().rsplit(".", 1)[-1]` when the filename is truthy and
contains a dot, else no extension. -/
def extensionOf : Option Str → Str
  | none => []
  | some f =>
    if f.contains '.' then (splitOnChar '.' (pyLower f)).getLast! else []

/-- The strategy loop of `_load_statement_dataframe`: invoke each strategy
in order, catching any error as a miss; the first non-empty table wins,
tagged with the strategy name. -/
def runStrategies : List (String × PyLoader) → Bytes → Option (RawTable × String)
  | [], _ => none
  | (name, f) :: rest, b =>
    match f b with
    | Except.ok (some t) => if nonEmptyTable t then some (t, name) else runStrategies rest b
    | Except.ok none => runStrategies rest b
    | Except.error _ => runStrategies rest b

/-- The loader chain over a given strategy list: structured strategies
first, then the text transaction extractor over the decoded bytes, then
the empty table tagged `unparsed`. Never fails. -/
def loadWith (loaders : List (String × PyLoader)) (b : Bytes) : RawTable × String :=
  match runStrategies loaders b with
  | some r => r
  | none =>
    let tdf := extractTextTransactions (decodeBytes b)
    if nonEmptyTable tdf then (tdf, "text_fallback") else (⟨[], []⟩, "unparsed")

/-- Source `_load_statement_dataframe`: extension-biased strategy order,
then the generic chain, then the text fallback. -/
def loadStatementDataframe (b : Bytes) (filename : Option Str) : RawTable × String :=
  loadWith (extLoaders (extensionOf filename) ++ genericLoaders) b

/-- `analyze_bank_statement` over an arbitrary strategy list (the list the
source builds, or any other): load, then summarize; total. -/
def analyzeWith (loaders : List (String × PyLoader)) (b : Bytes) : Summary :=
  summaryOfTable (loadWith loaders b).1

/-- Source `analyze_bank_statement`: raw bytes and optional filename to the
fixed-shape summary record. -/
def analyzeBankStatement (b : Bytes) (filename : Option Str) : Summary :=
  analyzeWith (extLoaders (extensionOf filename) ++ genericLoaders) b

/-- Whether a resolved label occurs more than once among the stripped
headers. Pandas `df[label]` returns a Series only when the label is unique;
with a duplicated label it returns a DataFrame, and the Series-only
accessors the pipeline then applies (`.str` in `_to_numeric`, the
column-assembly path of `pd.to_datetime`) raise instead of computing. -/
def dupLabel (hs : List Str) : Option Str → Bool
  | none => false
  | some n => 1 < hs.countP (fun h => h = n)

/-- Error-aware `_normalize_statement`: the total model `normalizeStatement`
describes the non-raising runs; this wrapper adds the duplicate-label crash
conditions at exactly the points the source touches a column, in source
order — the date column for `pd.to_datetime` (line 542, ValueError), the
debit and credit columns (lines 550-551), the amount column or, when the
keyword lookup misses, every non-excluded column scanned by
`_best_numeric_column` (lines 557-559 and 504, AttributeError from `.str`
on a DataFrame), the type or description column used by the classifier
(lines 563 and 575), and finally the balance (line 585) and description
(line 590) columns. When no touched label is duplicated the result is the
total model's. -/
def normalizeStatementE (t : RawTable) : Except String (List Tx × Detected) :=
  let hs := t.headers.map pyStrip
  let cols := statementCols t
  if dupLabel hs cols.dateCol then Except.error "ValueError"
  else if cols.debitCol.isSome && cols.creditCol.isSome then
    if dupLabel hs cols.debitCol || dupLabel hs cols.creditCol then
      Except.error "AttributeError"
    else if dupLabel hs cols.balanceCol then Except.error "AttributeError"
    else if dupLabel hs cols.descCol then Except.error "AttributeError"
    else Except.ok (normalizeStatement t)
  else
    let amountCrash :=
      match findColumn hs amountKeys with
      | some a => dupLabel hs (some a)
      | none =>
        hs.any (fun col =>
          !(([cols.balanceCol, cols.dateCol].filterMap id).contains col) &&
            1 < hs.countP (fun h => h = col))
    if amountCrash then Except.error "AttributeError"
    else if (match cols.typeCol with
        | some _ => dupLabel hs cols.typeCol
        | none => dupLabel hs cols.descCol) then Except.error "AttributeError"
    else if dupLabel hs cols.balanceCol then Except.error "AttributeError"
    else if dupLabel hs cols.descCol then Except.error "AttributeError"
    else Except.ok (normalizeStatement t)

/-- Error-aware tail of `analyze_bank_statement`: the empty checks and the
aggregation never raise, so the only error source is the normalization's
duplicate-label paths. -/
def summaryOfTableE (t : RawTable) : Except String Summary :=
  if !nonEmptyTable t then Except.ok zeroSummary
  else
    match normalizeStatementE t with
    | Except.error e => Except.error e
    | Except.ok (txs, det) =>
      if txs.isEmpty then Except.ok zeroSummary
      else Except.ok (summarizeTxs txs det.descCol.isSome)

/-- Error-aware `analyze_bank_statement` over an arbitrary strategy list. -/
def analyzeWithE (loaders : List (String × PyLoader)) (b : Bytes) : Except String Summary :=
  summaryOfTableE (loadWith loaders b).1

/-- Error-aware `analyze_bank_statement` over the strategy list the source
builds from the optional filename. -/
def analyzeBankStatementE (b : Bytes) (fn : Option Str) : Except String Summary :=
  analyzeWithE (extLoaders (extensionOf fn) ++ genericLoaders) b

/-- Whether a text contains no decimal digit at all. -/
def noDigitStr (s : Str) : Bool := s.all (fun c => !isDigitChar c)

/-- Decodable bytes whose two raw headers are distinct but collide after
the header strip, leaving duplicate `a` labels. -/
def c1CrashBytes : Bytes := ("a ,a\nx,y").data.map Char.toNat

/-- The raw-table input of the C2 scenario, as uploaded bytes. -/
def c2bytes : Bytes :=
  ("Txn Date,Narration,CR Amt,DR Amt,Running Bal\n2026-02-01,Salary credit,45000,0,52000\n2026-02-02,UPI grocery payment,0,1200,50800\n2026-02-03,UPI fuel payment,0,800,50000").data.map Char.toNat

/-- A single ambiguous numeric column resolving to no role. -/
def singleColTable : RawTable := ⟨["value".data], [[Cell.str "100".data]]⟩

/-- Digit-free bytes that the delimited-text strategy still parses. -/
def noDigitBytes : Bytes := ("debit,credit\nxx,yy").data.map Char.toNat

/-- Digit-free bytes on which every strategy misses. -/
def noDigitMissBytes : Bytes := "upi".data.map Char.toNat

/-- A table with one resolvable-amount row and one unresolvable row. -/
def mixedTable : RawTable :=
  ⟨["amt".data], [[Cell.str "7".data], [Cell.str "xx".data]]⟩

section Helpers

/-- A `filterMap` keeps exactly the elements on which the function hits. -/
theorem length_filterMap_eq_countP {α β : Type} (f : α → Option β) (l : List α) :
    (l.filterMap f).length = l.countP (fun x => (f x).isSome) := by
  induction l with
  | nil => rfl
  | cons x xs ih =>
    cases h : f x <;>
      simp [List.filterMap_cons, List.countP_cons, h, ih]

/-- A `filterMap` that hits everywhere is a `map`. -/
theorem filterMap_eq_map_of_forall {α β : Type} {f : α → Option β} {g : α → β}
    {l : List α} (h : ∀ x ∈ l, f x = some (g x)) : l.filterMap f = l.map g := by
  induction l with
  | nil => rfl
  | cons x xs ih =>
    rw [List.filterMap_cons, h x (List.mem_cons_self x xs),
      List.map_cons, ih (fun y hy => h y (List.mem_cons_of_mem x hy))]

/-- Sum of a credit/debit partition of a transaction list. -/
theorem sum_filter_credit_debit (l : List Tx)
    (h : ∀ tx ∈ l, tx.txType = "credit".data ∨ tx.txType = "debit".data) :
    ((l.filter (fun tx => tx.txType = "credit".data)).map (fun tx => tx.amount)).sum +
      ((l.filter (fun tx => tx.txType = "debit".data)).map (fun tx => tx.amount)).sum =
      (l.map (fun tx => tx.amount)).sum := by
  induction l with
  | nil => simp
  | cons x xs ih =>
    have ihx := ih (fun y hy => h y (List.mem_cons_of_mem x hy))
    rcases h x (List.mem_cons_self x xs) with hc | hd
    · have h1 : (decide (x.txType = "credit".data)) = true := by rw [hc]; decide
      have h2 : (decide (x.txType = "debit".data)) = false := by rw [hc]; decide
      simp [List.filter_cons, h1, h2]
      linarith [ihx]
    · have h1 : (decide (x.txType = "credit".data)) = false := by rw [hd]; decide
      have h2 : (decide (x.txType = "debit".data)) = true := by rw [hd]; decide
      simp [List.filter_cons, h1, h2]
      linarith [ihx]

/-- Every transaction a row yields has a type after the final coercion. -/
theorem coerceType_mem (s : Str) :
    coerceType s = "credit".data ∨ coerceType s = "debit".data := by
  unfold coerceType
  by_cases h : pyLower s = "credit".data ∨ pyLower s = "debit".data
  · rw [if_pos (by simpa using h)]
    exact h
  · rw [if_neg (by simpa using h)]
    right
    rfl

/-- Any canonical transaction built by `rowTx?` carries a non-negative amount. -/
theorem rowTx_amount_nonneg {t : RawTable} {row : List Cell} {tx : Tx}
    (h : rowTx? t row = some tx) : 0 ≤ tx.amount := by
  unfold rowTx? at h
  rcases hdc : (statementCols t).debitCol with _ | dc <;>
    rcases hcc : (statementCols t).creditCol with _ | cc <;>
    simp only [hdc, hcc] at h
  case none.none | none.some | some.none =>
    split at h
    · exact Option.noConfusion h
    · rw [← Option.some.inj h]
      exact abs_nonneg _
  case some.some =>
    rw [← Option.some.inj h]
    by_cases hc : 0 < |(((cellAtCol t row (some cc)).bind toNumericCell).getD 0)|
    · simp only [if_pos hc]
      exact abs_nonneg _
    · simp only [if_neg hc]
      exact abs_nonneg _

/-- Any canonical transaction built by `rowTx?` is typed credit or debit. -/
theorem rowTx_type_mem {t : RawTable} {row : List Cell} {tx : Tx}
    (h : rowTx? t row = some tx) :
    tx.txType = "credit".data ∨ tx.txType = "debit".data := by
  unfold rowTx? at h
  rcases hdc : (statementCols t).debitCol with _ | dc <;>
    rcases hcc : (statementCols t).creditCol with _ | cc <;>
    simp only [hdc, hcc] at h
  case none.none | none.some | some.none =>
    split at h
    · exact Option.noConfusion h
    · rw [← Option.some.inj h]
      exact coerceType_mem _
  case some.some =>
    rw [← Option.some.inj h]
    exact coerceType_mem _

/-- A row survives `dropna` exactly when its amount resolves. -/
theorem rowTx_isSome_iff_amount {t : RawTable} {row : List Cell} :
    (rowTx? t row).isSome = (rowResolvedAmount? t row).isSome := by
  unfold rowTx? rowResolvedAmount?
  rcases hdc : (statementCols t).debitCol with _ | dc <;>
    rcases hcc : (statementCols t).creditCol with _ | cc <;>
    simp only [hdc, hcc]
  case none.none | none.some | some.none =>
    rcases hv : ((cellAtCol t row (statementCols t).amountCol).bind toNumericCell) with _ | v <;>
      simp [hv]
  case some.some => simp

/-- With no keywords left, no column resolves. -/
theorem findColumn_nil_headers : ∀ ks, findColumn [] ks = none := by
  intro ks
  induction ks with
  | nil => rfl
  | cons k ks ih => simp [findColumn, ih]

/-- A table without headers normalizes every row away. -/
theorem rowTx_none_of_headers_nil {t : RawTable} (h : t.headers = [])
    (row : List Cell) : rowTx? t row = none := by
  have hcols : statementCols t = ⟨none, none, none, none, none, none, none⟩ := by
    unfold statementCols bestNumericColumn
    rw [h]
    simp only [List.map_nil, findColumn_nil_headers, List.foldl_nil]
    norm_num
  unfold rowTx?
  rw [hcols]
  rfl

/-- The final coercion fixes the debit literal. -/
theorem coerceType_debit :
    coerceType ['d', 'e', 'b', 'i', 't'] = ['d', 'e', 'b', 'i', 't'] := by decide

/-- The final coercion fixes the credit literal. -/
theorem coerceType_credit :
    coerceType ['c', 'r', 'e', 'd', 'i', 't'] = ['c', 'r', 'e', 'd', 'i', 't'] := by decide

/-- If some header matches the first keyword, the role resolves. -/
theorem findColumn_isSome_head {hs : List Str} {k : Str} (ks : List Str)
    (h : ∃ x ∈ hs, substrIn k (normalizeColName x) = true) :
    (findColumn hs (k :: ks)).isSome = true := by
  unfold findColumn
  have hfind : (hs.find? (fun x => substrIn k (normalizeColName x))).isSome = true :=
    List.find?_isSome.mpr h
  rcases hy : hs.find? (fun x => substrIn k (normalizeColName x)) with _ | y
  · rw [hy] at hfind
    exact absurd hfind (by simp)
  · rfl

/-- Python `round` of zero is zero at any precision. -/
theorem pyRound_zero (n : Nat) : pyRound n 0 = 0 := by
  unfold pyRound
  rw [zero_mul]
  simp only []
  rw [show ((0 : Rat).floor) = 0 from rfl]
  rw [if_pos (by rw [Rat.divInt_eq_div]; norm_num)]
  exact Rat.zero_divInt _

/-- Unpacking of the digit-free predicate. -/
theorem noDigit_mem {s : Str} (h : noDigitStr s = true) {c : Char} (hc : c ∈ s) :
    isDigitChar c = false := by
  unfold noDigitStr at h
  rw [List.all_eq_true] at h
  have := h c hc
  simpa using this

/-- A successful UTF-8 step consumes at least one byte. -/
theorem utf8Step_length {l : Bytes} {c : Char} {r : Bytes}
    (h : utf8Step l = some (c, r)) : r.length < l.length := by
  rcases l with _ | ⟨b, rest⟩
  · exact Option.noConfusion h
  · simp only [utf8Step] at h
    repeat' split at h
    all_goals first
      | exact Option.noConfusion h
      | (injection h with h1
         injection h1 with hc hr
         subst hr
         simp_all [List.length_cons]
         try omega)

/-- The fuel of the UTF-8 loop is irrelevant once it covers the length. -/
theorem utf8Go_eq_len : ∀ (f : Nat) (l : Bytes), l.length ≤ f →
    utf8Go f l = utf8Go l.length l := by
  intro f
  induction f using Nat.strong_induction_on with
  | _ f ih =>
    intro l hl
    rcases l with _ | ⟨b, rest⟩
    · rcases f with _ | g <;> rfl
    · rcases f with _ | g
      · exact absurd hl (by simp)
      · show (match utf8Step (b :: rest) with
          | none => none
          | some (c, r) => (utf8Go g r).map (fun cs => c :: cs)) =
          (match utf8Step (b :: rest) with
          | none => none
          | some (c, r) => (utf8Go rest.length r).map (fun cs => c :: cs))
        rcases hstep : utf8Step (b :: rest) with _ | ⟨c, r⟩
        · rfl
        · have hlen := utf8Step_length hstep
          simp only [List.length_cons] at hlen hl
          have h1 : utf8Go g r = utf8Go r.length r :=
            ih g (Nat.lt_succ_self g) r (by omega)
          have h2 : utf8Go rest.length r = utf8Go r.length r :=
            ih rest.length (by omega) r (by omega)
          simp only [h1, h2]

/-- Decoding after a byte-order mark prepends U+FEFF. -/
theorem utf8_bom (r : Bytes) :
    utf8Decode? (239 :: 187 :: 191 :: r) =
      (utf8Decode? r).map (fun s => Char.ofNat 65279 :: s) := by
  have hstep : utf8Step (239 :: 187 :: 191 :: r) = some (Char.ofNat 65279, r) := by
    simp [utf8Step, isCont]
  unfold utf8Decode?
  show utf8Go (r.length + 2 + 1) (239 :: 187 :: 191 :: r) = _
  rw [show utf8Go (r.length + 2 + 1) (239 :: 187 :: 191 :: r) =
      (match utf8Step (239 :: 187 :: 191 :: r) with
        | none => none
        | some (c, rr) => (utf8Go (r.length + 2) rr).map (fun cs => c :: cs)) from rfl]
  rw [hstep]
  show (utf8Go (r.length + 2) r).map (fun cs => Char.ofNat 65279 :: cs) =
    (utf8Go r.length r).map (fun s => Char.ofNat 65279 :: s)
  rw [utf8Go_eq_len (r.length + 2) r (by omega)]

/-- If the decoded text of the document is digit-free and the bytes are
valid UTF-8, the UTF-8 reading (used by the delimited-text strategy) is
digit-free as well. -/
theorem utf8_noDigit {b : Bytes} {s : Str}
    (hnd : noDigitStr (decodeBytes b) = true) (hdec : utf8Decode? b = some s) :
    noDigitStr s = true := by
  by_cases hbom : b.take 3 = [239, 187, 191]
  · have hb : b = 239 :: 187 :: 191 :: b.drop 3 := by
      conv_lhs => rw [← List.take_append_drop 3 b]
      rw [hbom]
      rfl
    rw [hb, utf8_bom] at hdec
    rcases hr : utf8Decode? (b.drop 3) with _ | s'
    · rw [hr] at hdec
      exact Option.noConfusion hdec
    · rw [hr] at hdec
      have hs : s = Char.ofNat 65279 :: s' := (Option.some.inj hdec).symm
      have hdb : decodeBytes b = s' := by
        unfold decodeBytes stripBOM
        rw [if_pos hbom, hr]
      rw [hdb] at hnd
      rw [hs]
      unfold noDigitStr at hnd ⊢
      rw [List.all_cons, hnd]
      decide
  · have hdb : decodeBytes b = s := by
      unfold decodeBytes stripBOM
      rw [if_neg hbom, hdec]
    rw [hdb] at hnd
    exact hnd

/-- Characters of split pieces come from the split text. -/
theorem mem_splitOnChar {d : Char} : ∀ {l p : Str}, p ∈ splitOnChar d l →
    ∀ {c : Char}, c ∈ p → c ∈ l := by
  intro l
  induction l with
  | nil =>
    intro p hp c hc
    simp [splitOnChar] at hp
    rw [hp] at hc
    exact absurd hc (List.not_mem_nil c)
  | cons x xs ih =>
    intro p hp c hc
    unfold splitOnChar at hp
    by_cases hx : x = d
    · rw [if_pos hx] at hp
      rcases List.mem_cons.mp hp with h | h
      · rw [h] at hc
        exact absurd hc (List.not_mem_nil c)
      · exact List.mem_cons_of_mem x (ih h hc)
    · rw [if_neg hx] at hp
      rcases hsp : splitOnChar d xs with _ | ⟨q, qs⟩
      · rw [hsp] at hp
        rcases List.mem_singleton.mp hp with rfl
        rcases List.mem_singleton.mp hc with rfl
        exact List.mem_cons_self c xs
      · rw [hsp] at hp
        rcases List.mem_cons.mp hp with h | h
        · rw [h] at hc
          rcases List.mem_cons.mp hc with rfl | hcq
          · exact List.mem_cons_self c xs
          · exact List.mem_cons_of_mem x (ih (hsp ▸ List.mem_cons_self q qs) hcq)
        · exact List.mem_cons_of_mem x (ih (hsp ▸ List.mem_cons_of_mem q h) hc)

/-- Characters of split lines come from the initial line or the rest. -/
theorem mem_splitLinesAux : ∀ {l cur p : Str}, p ∈ splitLinesAux cur l →
    ∀ {c : Char}, c ∈ p → c ∈ cur ∨ c ∈ l := by
  intro l
  induction l with
  | nil =>
    intro cur p hp c hc
    unfold splitLinesAux at hp
    split at hp
    · exact absurd hp (List.not_mem_nil p)
    · rcases List.mem_singleton.mp hp with rfl
      exact Or.inl (List.mem_reverse.mp hc)
  | cons x xs ih =>
    intro cur p hp c hc
    unfold splitLinesAux at hp
    split at hp
    · rcases List.mem_cons.mp hp with h | h
      · rw [h] at hc
        exact Or.inl (List.mem_reverse.mp hc)
      · rcases ih h hc with h2 | h2
        · exact absurd h2 (List.not_mem_nil c)
        · exact Or.inr (List.mem_cons_of_mem x h2)
    · rcases ih hp hc with h2 | h2
      · rcases List.mem_cons.mp h2 with rfl | h3
        · exact Or.inr (List.mem_cons_self c xs)
        · exact Or.inl h3
      · exact Or.inr (List.mem_cons_of_mem x h2)

/-- Characters of the split lines of a text come from the text. -/
theorem mem_splitLines {s p : Str} (hp : p ∈ splitLines s) {c : Char}
    (hc : c ∈ p) : c ∈ s := by
  rcases mem_splitLinesAux hp hc with h | h
  · exact absurd h (List.not_mem_nil c)
  · exact h

/-- Striped text keeps only characters of the original. -/
theorem mem_pyStrip {s : Str} {c : Char} (hc : c ∈ pyStrip s) : c ∈ s := by
  unfold pyStrip at hc
  rw [List.mem_reverse] at hc
  have h1 := List.dropWhile_sublist (l := (s.dropWhile isSpaceChar).reverse) (p := isSpaceChar)
  have h2 := h1.mem hc
  rw [List.mem_reverse] at h2
  exact (List.dropWhile_sublist (l := s) (p := isSpaceChar)).mem h2

/-- The sign-stripped body only keeps characters of the input. -/
theorem stripNeg_mem {l : Str} {c : Char} (hc : c ∈ (stripNeg l).2) : c ∈ l := by
  unfold stripNeg at hc
  split at hc
  · exact List.mem_cons_of_mem _ hc
  · exact hc

/-- A numeric string must carry a digit to coerce. -/
theorem parseCleaned_none_of_noDigit {l : Str}
    (h : ∀ c ∈ l, isDigitChar c = false) : parseCleaned l = none := by
  have hbody : ∀ c ∈ (stripNeg l).2, isDigitChar c = false :=
    fun c hc => h c (stripNeg_mem hc)
  have hguard : ∀ (p : Str), p ∈ splitOnChar '.' (stripNeg l).2 →
      (p ≠ [] && p.all isDigitChar) = false := by
    intro p hp
    rcases hpn : p with _ | ⟨c0, p0⟩
    · simp
    · rw [Bool.and_eq_false_iff]
      right
      rw [List.all_eq_false]
      refine ⟨c0, List.mem_cons_self c0 p0, ?_⟩
      have := hbody c0 (mem_splitOnChar hp (by rw [hpn]; exact List.mem_cons_self c0 p0))
      simp [this]
  unfold parseCleaned
  rcases hsp : splitOnChar '.' (stripNeg l).2 with _ | ⟨ip, rest⟩
  · rfl
  · rcases rest with _ | ⟨fp, rest2⟩
    · simp only [List.mem_singleton]
      simp
      intro hne
      rcases List.exists_mem_of_ne_nil ip hne with ⟨c0, hc0⟩
      exact ⟨c0, hc0, hbody c0 (mem_splitOnChar (hsp ▸ List.mem_cons_self ip []) hc0)⟩
    · rcases rest2 with _ | ⟨z, zs⟩
      · have hg : (decide (ip ++ fp ≠ []) && (ip ++ fp).all isDigitChar) = false := by
          by_cases hne : ip ++ fp = []
          · simp [hne]
          · rw [Bool.and_eq_false_iff]
            right
            rw [List.all_eq_false]
            rcases List.exists_mem_of_ne_nil _ hne with ⟨c0, hc0⟩
            refine ⟨c0, hc0, ?_⟩
            have hnd : isDigitChar c0 = false := by
              rcases List.mem_append.mp hc0 with hm | hm
              · exact hbody c0 (mem_splitOnChar (hsp ▸ List.mem_cons_self ip _) hm)
              · exact hbody c0 (mem_splitOnChar
                  (hsp ▸ List.mem_cons_of_mem ip (List.mem_cons_self fp _)) hm)
            simp [hnd]
        simp [hg]
        intro hor hall
        rcases hip : ip with _ | ⟨c0, ip0⟩
        · subst hip
          rcases hor with h1 | h1
          · exact absurd rfl h1
          · rcases List.exists_mem_of_ne_nil fp h1 with ⟨c0, hc0⟩
            exact ⟨c0, hc0, hbody c0 (mem_splitOnChar
              (hsp ▸ List.mem_cons_of_mem [] (List.mem_cons_self fp [])) hc0)⟩
        · subst hip
          have hd := hall c0 (List.mem_cons_self c0 ip0)
          have hnd := hbody c0 (mem_splitOnChar (hsp ▸ List.mem_cons_self (c0 :: ip0) [fp])
            (List.mem_cons_self c0 ip0))
          rw [hnd] at hd
          exact absurd hd (by simp)
      · rfl

/-- The numeric normalizer yields missing on digit-free text. -/
theorem toNumericStr_none_of_noDigit {u : Str} (h : noDigitStr u = true) :
    toNumericStr u = none := by
  unfold toNumericStr
  simp only []
  split
  · rfl
  · apply parseCleaned_none_of_noDigit
    intro c hc
    have h1 := List.mem_of_mem_filter hc
    have h2 := List.mem_of_mem_filter h1
    exact noDigit_mem h h2

/-- The numeric-token scanner finds nothing in digit-free text. -/
theorem scanNums_nil_of_noDigit : ∀ (f : Nat) {l : Str},
    (∀ c ∈ l, isDigitChar c = false) → scanNums f l = [] := by
  intro f
  induction f with
  | zero => intro l hl; cases l <;> rfl
  | succ g ih =>
    intro l hl
    rcases l with _ | ⟨c, cs⟩
    · rfl
    · have hstep : takeNumToken (c :: cs) = none := by
        simp only [takeNumToken]
        rw [if_neg (by simp [hl c (List.mem_cons_self c cs)])]
        by_cases hsign : c = '-' ∨ c = '+'
        · rw [if_pos (by simpa using hsign)]
          rcases cs with _ | ⟨d, ds⟩
          · rfl
          · show (if isDigitChar d = true then
                some (c :: (grabNum d ds).1, (grabNum d ds).2) else none) = none
            rw [if_neg (by simp [hl d (List.mem_cons_of_mem c (List.mem_cons_self d ds))])]
        · rw [if_neg (by simpa using hsign)]
      show (match takeNumToken (c :: cs) with
        | some (tok, r) => tok :: scanNums g r
        | none => scanNums g cs) = []
      rw [hstep]
      exact ih (fun x hx => hl x (List.mem_cons_of_mem c hx))

/-- A digit-free line produces no candidate text transaction. -/
theorem textRow_none_of_noDigit {rawLine : Str}
    (h : ∀ c ∈ rawLine, isDigitChar c = false) : textRow? rawLine = none := by
  unfold textRow?
  simp only []
  split
  · rfl
  · have hln : lineNumbers (pyStrip rawLine) = [] := by
      unfold lineNumbers
      exact scanNums_nil_of_noDigit _ (fun c hc => h c (mem_pyStrip hc))
    rw [hln]
    rfl

/-- The text transaction extractor finds nothing in digit-free text. -/
theorem extract_empty_of_noDigit {text : Str} (h : noDigitStr text = true) :
    extractTextTransactions text = ⟨[], []⟩ := by
  unfold extractTextTransactions
  have hrows : (splitLines text).filterMap textRow? = [] := by
    rw [List.filterMap_eq_nil_iff]
    intro line hline
    exact textRow_none_of_noDigit (fun c hc => noDigit_mem h (mem_splitLines hline hc))
  rw [hrows]
  rfl

/-- Every strategy the source's chain can contain is one of the six
modelled loaders. -/
theorem loader_mem_six (e : Str) (p : String × PyLoader)
    (hp : p ∈ extLoaders e ++ genericLoaders) :
    p.2 = csvLoad ∨ p.2 = excelLoad ∨ p.2 = jsonLoad ∨ p.2 = xmlLoad ∨
      p.2 = pdfLoad ∨ p.2 = docxLoad := by
  rcases List.mem_append.mp hp with h | h
  · unfold extLoaders at h
    repeat' split at h
    all_goals
      first
        | exact absurd h (List.not_mem_nil p)
        | (rw [List.mem_singleton] at h; subst h; simp)
  · have h2 : p = ("csv", csvLoad) ∨ p = ("excel", excelLoad) ∨ p = ("json", jsonLoad) ∨
        p = ("xml", xmlLoad) ∨ p = ("pdf", pdfLoad) ∨ p = ("docx", docxLoad) := by
      simpa [genericLoaders] using h
    rcases h2 with rfl | rfl | rfl | rfl | rfl | rfl <;> simp

/-- A winning run of the strategy loop names a strategy in the list that
returned the table. -/
theorem runStrategies_some_mem {b : Bytes} : ∀ {L : List (String × PyLoader)}
    {t : RawTable} {name : String},
    runStrategies L b = some (t, name) → ∃ p ∈ L, p.2 b = Except.ok (some t) := by
  intro L
  induction L with
  | nil => intro t name hrun; exact Option.noConfusion hrun
  | cons p rest ih =>
    intro t name hrun
    rcases p with ⟨n, f⟩
    unfold runStrategies at hrun
    split at hrun
    · rename_i t2 heq
      split at hrun
      · have ht : t2 = t := congrArg Prod.fst (Option.some.inj hrun)
        subst ht
        exact ⟨(n, f), List.mem_cons_self _ _, heq⟩
      · rcases ih hrun with ⟨q, hq, hqe⟩
        exact ⟨q, List.mem_cons_of_mem _ hq, hqe⟩
    · rcases ih hrun with ⟨q, hq, hqe⟩
      exact ⟨q, List.mem_cons_of_mem _ hq, hqe⟩
    · rcases ih hrun with ⟨q, hq, hqe⟩
      exact ⟨q, List.mem_cons_of_mem _ hq, hqe⟩

/-- On digit-free decoded content, any table the delimited-text strategy
returns has only digit-free string cells or missing values, none of which
coerces to a numeric. -/
theorem csvLoad_cells_noDigit {b : Bytes} {t : RawTable}
    (hnd : noDigitStr (decodeBytes b) = true)
    (hcsv : csvLoad b = Except.ok (some t)) :
    ∀ row ∈ t.rows, ∀ cell ∈ row, toNumericCell cell = none := by
  unfold csvLoad at hcsv
  split at hcsv
  · exact Except.noConfusion hcsv
  rename_i s hdec
  split at hcsv
  · exact Except.noConfusion hcsv
  rename_i t2 hauto
  have ht : t2 = t := Option.some.inj (Except.ok.inj hcsv)
  subst ht
  have hs : noDigitStr s = true := utf8_noDigit hnd hdec
  unfold csvAuto? at hauto
  split at hauto
  · exact Option.noConfusion hauto
  rename_i first restLines hsl
  split at hauto
  · exact Option.noConfusion hauto
  rename_i d hdl
  simp only [] at hauto
  split at hauto
  · exact Option.noConfusion hauto
  have ht2 := Option.some.inj hauto
  rw [← ht2]
  intro row hrow cell hcell
  simp only [List.mem_map] at hrow
  rcases hrow with ⟨r, hr, hrmap⟩
  rw [← hrmap] at hcell
  simp only [List.mem_map] at hcell
  rcases hcell with ⟨i, _, hceq⟩
  by_cases hlt : i < r.length
  · rw [dif_pos hlt] at hceq
    rw [← hceq]
    show toNumericStr (r.get ⟨i, hlt⟩) = none
    apply toNumericStr_none_of_noDigit
    unfold noDigitStr
    rw [List.all_eq_true]
    intro c hc
    show (!isDigitChar c) = true
    rw [Bool.not_eq_true']
    rcases hr with ⟨line, hline, hlinemap⟩
    have hcline : c ∈ line := by
      apply mem_splitOnChar (d := d) (l := line)
      · rw [hlinemap]
        exact List.get_mem r i hlt
      · exact hc
    have hlinesl : line ∈ splitLines s := by
      rw [hsl]
      exact List.mem_cons_of_mem first hline
    exact noDigit_mem hs (mem_splitLines hlinesl hcline)
  · rw [dif_neg hlt] at hceq
    rw [← hceq]
    rfl

/-- When the crash-aware normalizer returns normally, its result is exactly
the total normalizer's. -/
theorem normalizeStatementE_ok {t : RawTable} {p : List Tx × Detected}
    (h : normalizeStatementE t = Except.ok p) : p = normalizeStatement t := by
  unfold normalizeStatementE at h
  simp only [] at h
  repeat' split at h
  all_goals first
    | exact Except.noConfusion h
    | exact (Except.ok.inj h).symm

/-- When the crash-aware analysis of a table returns normally, its summary
is exactly the total analysis's. -/
theorem summaryOfTableE_ok {t : RawTable} {s : Summary}
    (h : summaryOfTableE t = Except.ok s) : s = summaryOfTable t := by
  unfold summaryOfTableE at h
  unfold summaryOfTable
  split at h
  · rename_i hne
    rw [if_pos hne]
    exact (Except.ok.inj h).symm
  · rename_i hne
    rw [if_neg hne]
    split at h
    · exact Except.noConfusion h
    · rename_i txs det heq
      have hpair := normalizeStatementE_ok heq
      simp only []
      rw [← hpair]
      split at h
      · rename_i hemp
        rw [if_pos hemp]
        exact (Except.ok.inj h).symm
      · rename_i hemp
        rw [if_neg hemp]
        exact (Except.ok.inj h).symm

/-- When no cell of a row coerces, no resolved column of it coerces. -/
theorem cellAt_numeric_none {t : RawTable} {row : List Cell}
    (h : ∀ cell ∈ row, toNumericCell cell = none) (name? : Option Str) :
    (cellAtCol t row name?).bind toNumericCell = none := by
  rcases name? with _ | n
  · rfl
  · unfold cellAtCol
    rcases hidx : colIndex? (t.headers.map pyStrip) n with _ | i
    · simp [hidx]
    · simp only [Option.some_bind, hidx, Option.map_some']
      show toNumericCell (cellAtIdx row i) = none
      unfold cellAtIdx
      rcases hg : row.get? i with _ | c
      · rw [List.getD_eq_get?, hg]
        rfl
      · rw [List.getD_eq_get?, hg]
        exact h c (List.get?_mem hg)

/-- On a row with no coercible cell, any surviving transaction has zero
amount and no balance. -/
theorem rowTx_zero_of_cells {t : RawTable} {row : List Cell}
    (h : ∀ cell ∈ row, toNumericCell cell = none) {tx : Tx}
    (htx : rowTx? t row = some tx) : tx.amount = 0 ∧ tx.balance = none := by
  unfold rowTx? at htx
  rcases hdc : (statementCols t).debitCol with _ | dc <;>
    rcases hcc : (statementCols t).creditCol with _ | cc <;>
    simp only [hdc, hcc] at htx
  case none.none | none.some | some.none =>
    rw [cellAt_numeric_none h] at htx
    exact Option.noConfusion htx
  case some.some =>
    rw [cellAt_numeric_none h (some dc), cellAt_numeric_none h (some cc),
      cellAt_numeric_none h (statementCols t).balanceCol] at htx
    rw [← Option.some.inj htx]
    norm_num

/-- The population variance of identically zero samples is zero. -/
theorem popVar_zeros {xs : List Rat} (h : ∀ x ∈ xs, x = 0) : popVar xs = 0 := by
  unfold popVar
  simp only []
  rw [List.sum_eq_zero h, zero_div]
  rw [List.sum_eq_zero (by intro y hy
                           rcases List.mem_map.mp hy with ⟨x, hx, hxy⟩
                           rw [← hxy, h x hx]
                           norm_num)]
  exact zero_div _

/-- The modelled square root of zero is zero. -/
theorem ratSqrt_zero : ratSqrt 0 = 0 := by norm_num [ratSqrt]

/-- If every surviving transaction has zero amount and no balance, the four
numeric estimates of the summary are all zero. -/
theorem summary_four_zero {t : RawTable}
    (h : ∀ tx ∈ (normalizeStatement t).1, tx.amount = 0 ∧ tx.balance = none) :
    (summaryOfTable t).monthly_income_estimate = 0 ∧
    (summaryOfTable t).monthly_expense_estimate = 0 ∧
    (summaryOfTable t).avg_monthly_balance = 0 ∧
    (summaryOfTable t).income_volatility_index = 0 := by
  unfold summaryOfTable
  by_cases hne : nonEmptyTable t
  · rw [if_neg (by simp [hne])]
    by_cases hemp : (normalizeStatement t).1.isEmpty
    · rw [if_pos hemp]
      refine ⟨rfl, rfl, rfl, rfl⟩
    · rw [if_neg hemp]
      unfold summarizeTxs
      simp only []
      have hcredit : ∀ y ∈ ((normalizeStatement t).1.filter
          (fun tx => tx.txType = "credit".data)).map (fun tx => |tx.amount|), y = 0 := by
        intro y hy
        rcases List.mem_map.mp hy with ⟨tx, htx, hty⟩
        rw [← hty, (h tx (List.mem_of_mem_filter htx)).1]
        norm_num
      have hdebit : ∀ y ∈ ((normalizeStatement t).1.filter
          (fun tx => tx.txType = "debit".data)).map (fun tx => |tx.amount|), y = 0 := by
        intro y hy
        rcases List.mem_map.mp hy with ⟨tx, htx, hty⟩
        rw [← hty, (h tx (List.mem_of_mem_filter htx)).1]
        norm_num
      have hbal : (normalizeStatement t).1.filterMap (fun tx => tx.balance) = [] :=
        List.filterMap_eq_nil_iff.mpr (fun tx htx => (h tx htx).2)
      refine ⟨?_, ?_, ?_, ?_⟩
      · rw [List.sum_eq_zero hcredit, pyRound_zero]
      · rw [List.sum_eq_zero hdebit, pyRound_zero]
      · rw [hbal]
        rw [if_pos (by rfl)]
        exact pyRound_zero 2
      · by_cases hlen : 1 < (((normalizeStatement t).1.filter
            (fun tx => tx.txType = "credit".data)).map (fun tx => |tx.amount|)).length
        · rw [if_pos hlen, popVar_zeros hcredit, ratSqrt_zero]
          exact pyRound_zero 4
        · rw [if_neg hlen]
          exact pyRound_zero 4
  · rw [if_pos (by simp [hne])]
    refine ⟨rfl, rfl, rfl, rfl⟩

end Helpers

unseal Rat.add Rat.sub Rat.mul Rat.inv

set_option maxRecDepth 40000

/-- C1: refuted as stated — the source can raise. On the bytes
`a ,a\nx,y` with no filename, the delimited-text strategy returns the
headers `a ` and `a`; the header strip in `_normalize_statement`
(risk_service.py:525) collapses both to `a`, so the pandas label lookup
`df["a"]` yields a DataFrame rather than a Series, and the `.str` accessor
in `_to_numeric` (risk_service.py:320), reached through
`_best_numeric_column`, raises an uncaught `AttributeError` out of
`analyze_bank_statement` — it does not return the five-field summary the
claim promises for every input. -/
theorem analyze_raises_c1 :
    (loadStatementDataframe c1CrashBytes none).1.headers =
      [['a', ' '], ['a']] ∧
    (loadStatementDataframe c1CrashBytes none).1.headers.map pyStrip =
      [['a'], ['a']] ∧
    analyzeBankStatementE c1CrashBytes none = Except.error "AttributeError" := by
  refine ⟨by decide, by decide, ?_⟩
  rfl

/-- C2: the five-column CSV scenario: salary credit of 45000 and two UPI
debits of 1200 and 800 with running balances 52000, 50800, 50000 yield
income 45000.00, expenses 2000.00, average balance 50933.33, and at least
two UPI-marked transactions. -/
theorem csv_scenario_c2 :
    (analyzeBankStatement c2bytes none).monthly_income_estimate = 45000 ∧
    (analyzeBankStatement c2bytes none).monthly_expense_estimate = 2000 ∧
    (analyzeBankStatement c2bytes none).avg_monthly_balance = Rat.divInt 5093333 100 ∧
    2 ≤ (analyzeBankStatement c2bytes none).upi_transaction_frequency := by
  refine ⟨?_, ?_, ?_, ?_⟩ <;> decide

/-- C6: every canonical transaction the statement normalizer produces has a
non-negative amount (sign lives only in the type field), and the rows kept
are exactly those whose amount resolves to a numeric value — rows without a
resolvable amount are dropped before aggregation. -/
theorem amount_nonneg_dropped_c6 (t : RawTable) :
    (∀ tx ∈ (normalizeStatement t).1, 0 ≤ tx.amount) ∧
      (normalizeStatement t).1.length =
        t.rows.countP (fun r => (rowResolvedAmount? t r).isSome) := by
  constructor
  · intro tx htx
    simp only [normalizeStatement] at htx
    rcases List.mem_filterMap.mp htx with ⟨r, _, hr⟩
    exact rowTx_amount_nonneg hr
  · simp only [normalizeStatement]
    rw [length_filterMap_eq_countP]
    exact List.countP_congr (fun r _ => by rw [rowTx_isSome_iff_amount])

/-- C3 counterexample: the raw table with the single ambiguous numeric
column `value` holding `100` — no header resolving debit, credit, type or
description — yields income 100 and expenses 0: rule 4 classifies the
non-negative row as credit, not debit, so the claimed expense-sum/zero-income
conclusion fails. -/
theorem single_column_cex_c3 :
    (summaryOfTable singleColTable).monthly_income_estimate = 100 ∧
    (summaryOfTable singleColTable).monthly_expense_estimate = 0 ∧
    ¬((summaryOfTable singleColTable).monthly_income_estimate = 0 ∧
      (summaryOfTable singleColTable).monthly_expense_estimate = 100) := by
  refine ⟨?_, ?_, ?_⟩ <;> decide

/-- C3 (amended): for every raw table with exactly one column, whose header
resolves to none of the seven roles and whose cells all coerce to
non-negative numerics, the best-numeric-column fallback selects that
column and rule 4 classifies every row as credit — so
`monthly_income_estimate` equals the 2-decimal rounding of the sum of the
absolute values of the column and `monthly_expense_estimate` is 0. -/
theorem single_column_credit_c3 (t : RawTable) (h0 : Str)
    (hhead : t.headers = [h0])
    (hrows : t.rows ≠ [])
    (hdate : findColumn (t.headers.map pyStrip) dateKeys = none)
    (hbal : findColumn (t.headers.map pyStrip) balanceKeys = none)
    (htype : findColumn (t.headers.map pyStrip) typeKeys = none)
    (hdesc : findColumn (t.headers.map pyStrip) descKeys = none)
    (hdebit : findColumn (t.headers.map pyStrip) debitKeys = none)
    (hcredit : findColumn (t.headers.map pyStrip) creditKeys = none)
    (hamt : findColumn (t.headers.map pyStrip) amountKeys = none)
    (hnum : ∀ r ∈ t.rows, ∃ v, toNumericCell (cellAtIdx r 0) = some v ∧ 0 ≤ v) :
    (∀ tx ∈ (normalizeStatement t).1, tx.txType = "credit".data) ∧
    (summaryOfTable t).monthly_income_estimate =
      pyRound 2 ((t.rows.map (fun r => |((toNumericCell (cellAtIdx r 0)).getD 0)|)).sum) ∧
    (summaryOfTable t).monthly_expense_estimate = 0 := by
  have hsEq : t.headers.map pyStrip = [pyStrip h0] := by rw [hhead]; rfl
  have hdc : (statementCols t).debitCol = none := hdebit
  have hcc : (statementCols t).creditCol = none := hcredit
  have htc : (statementCols t).typeCol = none := htype
  have hxc : (statementCols t).descCol = none := hdesc
  have hbc : (statementCols t).balanceCol = none := hbal
  have hlen : t.rows.length ≠ 0 := fun hz => hrows (List.length_eq_zero.mp hz)
  have hcount : t.rows.countP (fun r => (toNumericCell (cellAtIdx r 0)).isSome) =
      t.rows.length := by
    apply List.countP_eq_length.mpr
    intro r hr
    rcases hnum r hr with ⟨v, hv, _⟩
    simp [hv]
  have hscore : colScore ⟨[pyStrip h0], t.rows⟩ (pyStrip h0) = some 1 := by
    unfold colScore colIndex?
    rw [show List.findIdx? (fun h => decide (h = pyStrip h0)) [pyStrip h0] = some 0 by simp]
    show (if t.rows.length = 0 then none
      else some (Rat.divInt (t.rows.countP (fun r => (toNumericCell (cellAtIdx r 0)).isSome))
        t.rows.length)) = some 1
    rw [if_neg hlen]
    rw [hcount, Rat.divInt_eq_div, div_self (by exact_mod_cast hlen)]
  have hstep : bestStep ⟨[pyStrip h0], t.rows⟩ [] ((none : Option Str), (-1 : Rat))
      (pyStrip h0) = (some (pyStrip h0), (1 : Rat)) := by
    unfold bestStep
    rw [if_neg (by simp)]
    rw [hscore]
    show (if (-1 : Rat) < 1 then (some (pyStrip h0), (1 : Rat))
      else ((none : Option Str), (-1 : Rat))) = (some (pyStrip h0), (1 : Rat))
    rw [if_pos (by norm_num)]
  have hbest : bestNumericColumn ⟨[pyStrip h0], t.rows⟩ [] = some (pyStrip h0) := by
    show (if (List.foldl (bestStep ⟨[pyStrip h0], t.rows⟩ [])
        ((none : Option Str), (-1 : Rat)) [pyStrip h0]).2 < Rat.divInt 3 10 then none
      else (List.foldl (bestStep ⟨[pyStrip h0], t.rows⟩ [])
        ((none : Option Str), (-1 : Rat)) [pyStrip h0]).1) = some (pyStrip h0)
    rw [List.foldl_cons, List.foldl_nil, hstep]
    rw [if_neg (show ¬((1 : Rat) < Rat.divInt 3 10) by rw [Rat.divInt_eq_div]; norm_num)]
  have hac : (statementCols t).amountCol = some (pyStrip h0) := by
    show (if (findColumn (t.headers.map pyStrip) debitKeys).isSome &&
        (findColumn (t.headers.map pyStrip) creditKeys).isSome then none
      else match findColumn (t.headers.map pyStrip) amountKeys with
        | some a => some a
        | none => bestNumericColumn ⟨t.headers.map pyStrip, t.rows⟩
            ([findColumn (t.headers.map pyStrip) balanceKeys,
              findColumn (t.headers.map pyStrip) dateKeys].filterMap id)) = some (pyStrip h0)
    rw [hdebit, hcredit, hamt, hbal, hdate, hsEq]
    show bestNumericColumn ⟨[pyStrip h0], t.rows⟩ [] = some (pyStrip h0)
    exact hbest
  have hcell0 : ∀ r : List Cell, cellAtCol t r (some (pyStrip h0)) = some (cellAtIdx r 0) := by
    intro r
    unfold cellAtCol colIndex?
    rw [hsEq]
    simp only [Option.some_bind]
    rw [show List.findIdx? (fun h => decide (h = pyStrip h0)) [pyStrip h0] = some 0 by simp]
    rfl
  have hrowtx : ∀ r ∈ t.rows, rowTx? t r =
      some ⟨|((toNumericCell (cellAtIdx r 0)).getD 0)|, "credit".data, none, []⟩ := by
    intro r hr
    rcases hnum r hr with ⟨v, hv, hvnn⟩
    unfold rowTx?
    simp only [hdc, hcc, htc, hxc, hbc, hac]
    rw [show cellAtCol t r (none : Option Str) = none from rfl]
    rw [hcell0 r]
    simp only [Option.none_bind, Option.some_bind]
    rw [hv]
    simp only [Option.getD_some]
    rw [if_neg (not_lt.mpr hvnn)]
    rw [coerceType_credit]
  have htxs : (normalizeStatement t).1 = t.rows.map
      (fun r => ⟨|((toNumericCell (cellAtIdx r 0)).getD 0)|, "credit".data, none, []⟩) := by
    simp only [normalizeStatement]
    exact filterMap_eq_map_of_forall hrowtx
  have hall : ∀ tx ∈ (normalizeStatement t).1, tx.txType = "credit".data := by
    intro tx htx
    rw [htxs] at htx
    rcases List.mem_map.mp htx with ⟨r, _, hrm⟩
    rw [← hrm]
  have hne : (!nonEmptyTable t) = false := by
    unfold nonEmptyTable
    rw [hhead]
    simp [List.isEmpty_iff, hrows]
  have hnotemp : (normalizeStatement t).1.isEmpty = false := by
    rw [htxs]
    simp [List.isEmpty_iff, hrows]
  have hfc : (normalizeStatement t).1.filter (fun tx => tx.txType = "credit".data) =
      (normalizeStatement t).1 :=
    List.filter_eq_self.mpr (fun tx htx => by simp [hall tx htx])
  have hfd : (normalizeStatement t).1.filter (fun tx => tx.txType = "debit".data) = [] :=
    List.filter_eq_nil_iff.mpr (fun tx htx => by simp [hall tx htx])
  refine ⟨hall, ?_, ?_⟩
  · unfold summaryOfTable
    rw [hne, if_neg (by simp)]
    rw [if_neg (by simp [hnotemp])]
    unfold summarizeTxs
    simp only []
    rw [hfc, htxs, List.map_map]
    congr 1
    apply congrArg
    apply List.map_congr_left
    intro r _
    show |(⟨|((toNumericCell (cellAtIdx r 0)).getD 0)|, "credit".data, none, []⟩ : Tx).amount| = _
    exact abs_abs _
  · unfold summaryOfTable
    rw [hne, if_neg (by simp)]
    rw [if_neg (by simp [hnotemp])]
    unfold summarizeTxs
    simp only []
    rw [hfd]
    show pyRound 2 (List.sum []) = 0
    rw [List.sum_nil]
    exact pyRound_zero 2

/-- Witness for C3 (amended) at the single-column table holding `100`. -/
theorem single_column_credit_c3_witness :
    (∀ tx ∈ (normalizeStatement singleColTable).1, tx.txType = "credit".data) ∧
    (summaryOfTable singleColTable).monthly_income_estimate =
      pyRound 2 ((singleColTable.rows.map
        (fun r => |((toNumericCell (cellAtIdx r 0)).getD 0)|)).sum) ∧
    (summaryOfTable singleColTable).monthly_expense_estimate = 0 :=
  single_column_credit_c3 singleColTable "value".data (by decide) (by decide)
    (by decide) (by decide) (by decide) (by decide) (by decide) (by decide) (by decide)
    (by
      intro r hr
      simp only [singleColTable] at hr
      rw [List.mem_singleton] at hr
      subst hr
      exact ⟨100, by decide, by decide⟩)

/-- C4: when no debit/credit column pair, no type column and no description
column resolve, a row whose amount cell coerces to the value `v` (the raw
sign survives the numeric cleaning, and only afterwards is the absolute
value stored) is classified by the sign of `v`: negative gives debit,
non-negative gives credit. -/
theorem sign_fallback_c4 (t : RawTable) (row : List Cell) (v : Rat)
    (hpair : ¬((statementCols t).debitCol.isSome ∧ (statementCols t).creditCol.isSome))
    (htype : (statementCols t).typeCol = none)
    (hdesc : (statementCols t).descCol = none)
    (hv : (cellAtCol t row (statementCols t).amountCol).bind toNumericCell = some v) :
    rowTx? t row = some ⟨|v|, if v < 0 then "debit".data else "credit".data,
      (cellAtCol t row (statementCols t).balanceCol).bind toNumericCell, []⟩ := by
  unfold rowTx?
  rcases hdc : (statementCols t).debitCol with _ | dc <;>
    rcases hcc : (statementCols t).creditCol with _ | cc
  case some.some =>
    exact absurd ⟨by rw [hdc]; rfl, by rw [hcc]; rfl⟩ hpair
  all_goals
    simp only [hdc, hcc]
    simp only [hv, htype, hdesc]
    simp only [show cellAtCol t row none = none from rfl]
    by_cases hneg : v < 0
    · simp only [if_pos hneg, coerceType_debit]
    · simp only [if_neg hneg, coerceType_credit]

/-- Witness for C4 at a concrete table: one unrecognized numeric column
holding `-5` classifies as debit. -/
theorem sign_fallback_c4_witness :
    rowTx? (⟨["value".data], [[Cell.str "-5".data]]⟩ : RawTable) [Cell.str "-5".data] =
      some ⟨|(-5 : Rat)|, if (-5 : Rat) < 0 then "debit".data else "credit".data,
        (cellAtCol (⟨["value".data], [[Cell.str "-5".data]]⟩ : RawTable) [Cell.str "-5".data]
          (statementCols (⟨["value".data], [[Cell.str "-5".data]]⟩ : RawTable)).balanceCol).bind
          toNumericCell, []⟩ :=
  sign_fallback_c4 _ _ _ (by decide) (by decide) (by decide) (by decide)

/-- C7: header-to-role matching is case- and whitespace-insensitive — any
table containing a header spelled `Txn Date`, `TXN_DATE` or ` txn date `
resolves the date role. -/
theorem header_case_insensitive_c7 :
    (∀ hs : List Str, "Txn Date".data ∈ hs → (findColumn hs dateKeys).isSome = true) ∧
    (∀ hs : List Str, "TXN_DATE".data ∈ hs → (findColumn hs dateKeys).isSome = true) ∧
    (∀ hs : List Str, " txn date ".data ∈ hs → (findColumn hs dateKeys).isSome = true) := by
  refine ⟨?_, ?_, ?_⟩ <;> intro hs hmem <;>
    exact findColumn_isSome_head _ ⟨_, hmem, by decide⟩

/-- Witness for C7: the three spellings as singleton header lists. -/
theorem header_case_insensitive_c7_witness :
    (findColumn ["Txn Date".data] dateKeys).isSome = true ∧
    (findColumn ["TXN_DATE".data] dateKeys).isSome = true ∧
    (findColumn [" txn date ".data] dateKeys).isSome = true :=
  ⟨header_case_insensitive_c7.1 _ (by decide),
   header_case_insensitive_c7.2.1 _ (by decide),
   header_case_insensitive_c7.2.2 _ (by decide)⟩

/-- C9: every canonical transaction is typed exactly credit or debit, and
the reported income and expense estimates are the 2-decimal roundings of
the credit-part and debit-part amount sums, whose exact values partition
the total amount sum. -/
theorem type_partition_c9 (b : Bytes) (fn : Option Str) :
    (∀ tx ∈ (normalizeStatement (loadStatementDataframe b fn).1).1,
        tx.txType = "credit".data ∨ tx.txType = "debit".data) ∧
    (analyzeBankStatement b fn).monthly_income_estimate =
      pyRound 2 ((((normalizeStatement (loadStatementDataframe b fn).1).1.filter
        (fun tx => tx.txType = "credit".data)).map (fun tx => tx.amount)).sum) ∧
    (analyzeBankStatement b fn).monthly_expense_estimate =
      pyRound 2 ((((normalizeStatement (loadStatementDataframe b fn).1).1.filter
        (fun tx => tx.txType = "debit".data)).map (fun tx => tx.amount)).sum) ∧
    (((normalizeStatement (loadStatementDataframe b fn).1).1.filter
        (fun tx => tx.txType = "credit".data)).map (fun tx => tx.amount)).sum +
      (((normalizeStatement (loadStatementDataframe b fn).1).1.filter
        (fun tx => tx.txType = "debit".data)).map (fun tx => tx.amount)).sum =
      ((normalizeStatement (loadStatementDataframe b fn).1).1.map (fun tx => tx.amount)).sum := by
  have htype : ∀ tx ∈ (normalizeStatement (loadStatementDataframe b fn).1).1,
      tx.txType = "credit".data ∨ tx.txType = "debit".data := by
    intro tx htx
    simp only [normalizeStatement] at htx
    rcases List.mem_filterMap.mp htx with ⟨r, _, hr⟩
    exact rowTx_type_mem hr
  have hnonneg : ∀ tx ∈ (normalizeStatement (loadStatementDataframe b fn).1).1,
      0 ≤ tx.amount := by
    intro tx htx
    simp only [normalizeStatement] at htx
    rcases List.mem_filterMap.mp htx with ⟨r, _, hr⟩
    exact rowTx_amount_nonneg hr
  refine ⟨htype, ?_, ?_, sum_filter_credit_debit _ htype⟩ <;>
  · have hrfl : analyzeBankStatement b fn = summaryOfTable (loadStatementDataframe b fn).1 := rfl
    rw [hrfl]
    unfold summaryOfTable
    by_cases hne : nonEmptyTable (loadStatementDataframe b fn).1
    · rw [if_neg (by simp [hne])]
      by_cases hemp : (normalizeStatement (loadStatementDataframe b fn).1).1.isEmpty
      · rw [if_pos hemp]
        rw [List.isEmpty_iff] at hemp
        rw [hemp]
        simp [zeroSummary, pyRound_zero]
      · rw [if_neg hemp]
        unfold summarizeTxs
        simp only []
        rw [List.map_congr_left (fun tx htx =>
          abs_of_nonneg (hnonneg tx (List.mem_of_mem_filter htx)))]
    · rw [if_pos (by simp [hne])]
      have hrows : (loadStatementDataframe b fn).1.rows = [] ∨
          (loadStatementDataframe b fn).1.headers = [] := by
        unfold nonEmptyTable at hne
        by_cases h : (loadStatementDataframe b fn).1.rows = []
        · exact Or.inl h
        · by_cases h2 : (loadStatementDataframe b fn).1.headers = []
          · exact Or.inr h2
          · exfalso
            apply hne
            simp [List.isEmpty_iff, h, h2]
      have htxs : (normalizeStatement (loadStatementDataframe b fn).1).1 = [] := by
        simp only [normalizeStatement]
        rcases hrows with h | h
        · rw [h]; rfl
        · exact List.filterMap_eq_nil_iff.mpr (fun row _ => rowTx_none_of_headers_nil h row)
      rw [htxs]
      simp [zeroSummary, pyRound_zero]

/-- C10: the empty byte string makes every structured strategy miss, the
text transaction extractor yields no rows, the chain returns the empty
table tagged `unparsed`, and the analysis returns the all-zero summary —
with or without a filename, and without raising. -/
theorem empty_input_c10 (fn : Option Str) :
    loadStatementDataframe [] fn = (⟨[], []⟩, "unparsed") ∧
      analyzeBankStatement [] fn = zeroSummary := by
  have hmiss : runStrategies (extLoaders (extensionOf fn) ++ genericLoaders) [] = none := by
    have hsix := fun p hp => loader_mem_six (extensionOf fn) p hp
    revert hsix
    generalize (extLoaders (extensionOf fn) ++ genericLoaders) = L
    intro hsix
    induction L with
    | nil => rfl
    | cons p rest ih =>
      have hhead := hsix p (List.mem_cons_self p rest)
      have hrest := fun q hq => hsix q (List.mem_cons_of_mem p hq)
      rcases p with ⟨n, f⟩
      simp only at hhead
      rcases hhead with hc | hc | hc | hc | hc | hc <;> subst hc <;>
        · show runStrategies rest [] = none
          exact ih hrest
  have h1 : loadStatementDataframe [] fn = (⟨[], []⟩, "unparsed") := by
    unfold loadStatementDataframe loadWith
    rw [hmiss]
    show (let tdf := extractTextTransactions (decodeBytes [])
      if nonEmptyTable tdf then (tdf, "text_fallback") else (⟨[], []⟩, "unparsed")) =
      (⟨[], []⟩, "unparsed")
    rw [extract_empty_of_noDigit (by decide)]
    rfl
  refine ⟨h1, ?_⟩
  show summaryOfTable (loadStatementDataframe [] fn).1 = zeroSummary
  rw [h1]
  rfl

/-- C5 counterexample: the digit-free document `debit,credit` over the row
`xx,yy` parses through the delimited-text strategy, keeps one zero-amount
debit transaction, and — having no description column — reports
`upi_transaction_frequency = 1`, not the all-zero summary the claim
asserts. -/
theorem no_digit_cex_c5 :
    noDigitStr (decodeBytes noDigitBytes) = true ∧
      (analyzeBankStatement noDigitBytes none).upi_transaction_frequency = 1 := by
  constructor <;> decide

/-- C5 (amended): for every input whose decoded content contains no digit
character, every run of the analysis that returns normally (raising runs
exist and are outside the claim) returns a summary whose four numeric
estimates (income, expenses, average balance, volatility) are all zero —
both for the source's own strategy list and generically for any strategy
list whose successful tables carry no numerically coercible cell on those
bytes; `upi_transaction_frequency` may still be positive because
zero-amount debit rows are counted when no description column resolves. -/
theorem no_digit_numeric_zero_c5 (b : Bytes) (fn : Option Str)
    (hnd : noDigitStr (decodeBytes b) = true) :
    (∀ s : Summary, analyzeBankStatementE b fn = Except.ok s →
      s.monthly_income_estimate = 0 ∧ s.monthly_expense_estimate = 0 ∧
      s.avg_monthly_balance = 0 ∧ s.income_volatility_index = 0) ∧
    (∀ (loaders : List (String × PyLoader)) (s : Summary),
      (∀ p ∈ loaders, ∀ t : RawTable, p.2 b = Except.ok (some t) →
        ∀ row ∈ t.rows, ∀ cell ∈ row, toNumericCell cell = none) →
      analyzeWithE loaders b = Except.ok s →
      s.monthly_income_estimate = 0 ∧ s.monthly_expense_estimate = 0 ∧
      s.avg_monthly_balance = 0 ∧ s.income_volatility_index = 0) := by
  have part2 : ∀ (loaders : List (String × PyLoader)) (s : Summary),
      (∀ p ∈ loaders, ∀ t : RawTable, p.2 b = Except.ok (some t) →
        ∀ row ∈ t.rows, ∀ cell ∈ row, toNumericCell cell = none) →
      analyzeWithE loaders b = Except.ok s →
      s.monthly_income_estimate = 0 ∧ s.monthly_expense_estimate = 0 ∧
      s.avg_monthly_balance = 0 ∧ s.income_volatility_index = 0 := by
    intro loaders s hload hok
    rcases hrun : runStrategies loaders b with _ | ⟨t, nm⟩
    · have hz : analyzeWithE loaders b = Except.ok zeroSummary := by
        unfold analyzeWithE loadWith
        rw [hrun]
        simp only []
        rw [extract_empty_of_noDigit hnd]
        rfl
      rw [hz] at hok
      rw [← Except.ok.inj hok]
      refine ⟨rfl, rfl, rfl, rfl⟩
    · have hcells : ∀ row ∈ t.rows, ∀ cell ∈ row, toNumericCell cell = none := by
        rcases runStrategies_some_mem hrun with ⟨p, hp, hpe⟩
        exact hload p hp t hpe
      have hW : loadWith loaders b = (t, nm) := by
        unfold loadWith
        rw [hrun]
      unfold analyzeWithE at hok
      rw [hW] at hok
      rw [summaryOfTableE_ok hok]
      exact summary_four_zero (by
        intro tx htx
        simp only [normalizeStatement] at htx
        rcases List.mem_filterMap.mp htx with ⟨r, hrmem, hr⟩
        exact rowTx_zero_of_cells (hcells r hrmem) hr)
  refine ⟨?_, part2⟩
  intro s hok
  unfold analyzeBankStatementE at hok
  refine part2 _ s ?_ hok
  intro p hp t hpe
  rcases loader_mem_six (extensionOf fn) p hp with hc | hc | hc | hc | hc | hc <;>
    rw [hc] at hpe
  · exact csvLoad_cells_noDigit hnd hpe
  · exact Except.noConfusion hpe
  · exact Except.noConfusion hpe
  · exact Except.noConfusion hpe
  · exact Option.noConfusion (Except.ok.inj hpe)
  · exact Option.noConfusion (Except.ok.inj hpe)

/-- Witness for C5 (amended): at the digit-free input `debit,credit` over
`xx,yy` the crash-aware pipeline returns normally with the summary whose
four numeric estimates are zero and whose debit-row count is one. -/
theorem no_digit_numeric_zero_c5_witness :
    (⟨0, 0, 0, 0, 1⟩ : Summary).monthly_income_estimate = 0 ∧
    (⟨0, 0, 0, 0, 1⟩ : Summary).monthly_expense_estimate = 0 ∧
    (⟨0, 0, 0, 0, 1⟩ : Summary).avg_monthly_balance = 0 ∧
    (⟨0, 0, 0, 0, 1⟩ : Summary).income_volatility_index = 0 :=
  (no_digit_numeric_zero_c5 noDigitBytes none (by decide)).1
    ⟨0, 0, 0, 0, 1⟩ (by rfl)

/-- Witness for C6 at a table with one coercible and one junk row: exactly
the coercible row survives, with a non-negative amount. -/
theorem amount_nonneg_dropped_c6_witness :
    (∀ tx ∈ (normalizeStatement mixedTable).1, 0 ≤ tx.amount) ∧
      (normalizeStatement mixedTable).1.length =
        mixedTable.rows.countP (fun r => (rowResolvedAmount? mixedTable r).isSome) :=
  amount_nonneg_dropped_c6 mixedTable

/-- Witness for C9 at the scenario CSV input. -/
theorem type_partition_c9_witness :
    (∀ tx ∈ (normalizeStatement (loadStatementDataframe c2bytes none).1).1,
        tx.txType = "credit".data ∨ tx.txType = "debit".data) ∧
    (analyzeBankStatement c2bytes none).monthly_income_estimate =
      pyRound 2 ((((normalizeStatement (loadStatementDataframe c2bytes none).1).1.filter
        (fun tx => tx.txType = "credit".data)).map (fun tx => tx.amount)).sum) ∧
    (analyzeBankStatement c2bytes none).monthly_expense_estimate =
      pyRound 2 ((((normalizeStatement (loadStatementDataframe c2bytes none).1).1.filter
        (fun tx => tx.txType = "debit".data)).map (fun tx => tx.amount)).sum) ∧
    (((normalizeStatement (loadStatementDataframe c2bytes none).1).1.filter
        (fun tx => tx.txType = "credit".data)).map (fun tx => tx.amount)).sum +
      (((normalizeStatement (loadStatementDataframe c2bytes none).1).1.filter
        (fun tx => tx.txType = "debit".data)).map (fun tx => tx.amount)).sum =
      ((normalizeStatement (loadStatementDataframe c2bytes none).1).1.map
        (fun tx => tx.amount)).sum :=
  type_partition_c9 c2bytes none

/-- C8: the analysis is deterministic — two invocations on identical bytes
and identical optional filename return identical summaries. -/
theorem deterministic_c8 (b1 b2 : Bytes) (f1 f2 : Option Str)
    (hb : b1 = b2) (hf : f1 = f2) :
    analyzeBankStatement b1 f1 = analyzeBankStatement b2 f2 := by
  rw [hb, hf]

/-- Witness for C8 at concrete input: the empty document, no filename. -/
theorem deterministic_c8_witness :
    analyzeBankStatement [] none = analyzeBankStatement [] none :=
  deterministic_c8 [] [] none none rfl rfl

end FinAware
